import Mathlib

/-!
Shallow embedding of the scheduler/dispatcher core of `src/naoqi_driver.cpp`
(the naoqi_driver2 runtime bridge).  Pure functions of the source become Lean
functions; the mutable members of `naoqi::Driver` become an explicit state
record threaded through each operation.  Time values (`rclcpp::Time`,
`rclcpp::Duration`) are modelled as rationals, with the float-to-duration
rounding of the source abstracted away, as the spec's design notes leave the
exact rounding rule an implementation choice.
-/

namespace NaoqiDriver

/-- Simulated monotonic time in seconds (`rclcpp::Time`). -/
abbrev Time := ℚ

/-- message_actions::MessageAction: the three per-tick delivery actions. -/
inductive MessageAction where
  | PUBLISH
  | RECORD
  | LOG
  deriving DecidableEq

/-- converter::Converter as the scheduler sees it: a name and a frequency in
Hz (frequency 0 marks a fire-once converter). -/
structure Converter where
  name : String
  frequency : ℚ
  deriving DecidableEq

/-- ScheduledConverter: a scheduled fire time paired with an index into
`converters_` (declared in the public header; fields mirror the accesses
`schedule_` and `conv_index_` in Driver::rosIteration). -/
structure ScheduledConverter where
  schedule_ : Time
  conv_index_ : Nat
  deriving DecidableEq

/-- publisher::Publisher as the driver observes it: its isSubscribed() state. -/
structure Publisher where
  subscribed : Bool
  deriving DecidableEq

/-- recorder::Recorder as the driver observes it: its isSubscribed() state,
its buffer horizon, and whether a call to its writeDump raises (the write
itself goes to the external bag and is not part of the driver state). -/
structure Recorder where
  subscribed : Bool
  buffer_duration : ℚ
  writeDumpThrows : Bool
  deriving DecidableEq

/-- event::Event as the driver observes it: the flags toggled through
isPublishing/isRecording/isDumping and startProcess/stopProcess, its buffer
horizon, and whether a call to its writeDump raises. -/
structure Event where
  is_publishing : Bool
  is_recording : Bool
  is_dumping : Bool
  processing : Bool
  buffer_duration : ℚ
  writeDumpThrows : Bool
  deriving DecidableEq

/-- recorder::GlobalRecorder.  Modelled from the spec: the persist transport's
container lifecycle `open(prefix) -> id` / `close() -> id`
(globalrecorder.cpp is not among the provided sources); the container's
identity is abstracted as the prefix it was opened with. -/
structure GlobalRecorder where
  is_recording : Bool
  current_bag : Option String
  deriving DecidableEq

/-- GlobalRecorder::startRecord(prefix): open a new container tagged by the
prefix. -/
def GlobalRecorder.startRecord (g : GlobalRecorder) (pfx : String) : GlobalRecorder :=
  { g with is_recording := true, current_bag := some pfx }

/-- GlobalRecorder::stopRecord: close the container and return its identity. -/
def GlobalRecorder.stopRecord (g : GlobalRecorder) : String × GlobalRecorder :=
  (g.current_bag.getD "", { is_recording := false, current_bag := none })

/-- Lookup in a `std::map<std::string, V>`, modelled as an association list.
The sorted enumeration order of std::map is abstracted as insertion order; no
verified claim depends on the enumeration order. -/
def mapFind (m : List (String × V)) (k : String) : Option V :=
  (m.find? (fun p => p.1 == k)).map (fun p => p.2)

/-- `std::map::insert`: the existing entry is kept (and the insertion is a
no-op) when the key is already present; the returned success flag is ignored
by every caller in the source. -/
def mapInsert (m : List (String × V)) (k : String) (v : V) : List (String × V) :=
  if m.any (fun p => p.1 == k) then m else m ++ [(k, v)]

/-- The mutable members of naoqi::Driver touched by the verified operations.
`folder_files_size` stands for the on-disk size that
helpers::filesystem::getFilesSize reads in the dump entry checks. -/
structure Driver where
  publish_enabled_ : Bool
  record_enabled_ : Bool
  log_enabled_ : Bool
  keep_looping : Bool
  converters_ : List Converter
  conv_queue_ : List ScheduledConverter
  pub_map_ : List (String × Publisher)
  rec_map_ : List (String × Recorder)
  event_map_ : List (String × Event)
  subscribers_ : List String
  buffer_duration_ : ℚ
  recorder_ : GlobalRecorder
  folder_files_size : ℤ
  deriving DecidableEq

/-- helpers::recorder::bufferDefaultDuration (the default buffer horizon set in
the Driver constructor; the constant lives in a helper header outside the
provided sources, its value is irrelevant to every claim). -/
def bufferDefaultDuration : ℚ := 10

/-- The state established by the Driver constructor (naoqi_driver.cpp lines
124-131): all enable flags off, keep_looping true, empty registries. -/
def initDriver : Driver :=
  { publish_enabled_ := false
    record_enabled_ := false
    log_enabled_ := false
    keep_looping := true
    converters_ := []
    conv_queue_ := []
    pub_map_ := []
    rec_map_ := []
    event_map_ := []
    subscribers_ := []
    buffer_duration_ := bufferDefaultDuration
    recorder_ := { is_recording := false, current_bag := none }
    folder_files_size := 0 }

/-- Modelled from the spec: ScheduledConverter's ordering (declared in the
missing public header) makes `conv_queue_` a priority queue whose top is the
entry with the earliest schedule, ties broken deterministically (here by
index). -/
def scBefore (a b : ScheduledConverter) : Bool :=
  decide (a.schedule_ < b.schedule_ ∨
    (a.schedule_ = b.schedule_ ∧ a.conv_index_ < b.conv_index_))

/-- The minimal entry of a nonempty queue, with `e` as the running candidate. -/
def minEntry (e : ScheduledConverter) : List ScheduledConverter → ScheduledConverter
  | [] => e
  | x :: xs => minEntry (if scBefore x e then x else e) xs

/-- conv_queue_.top(): the entry the next tick will dispatch. -/
def queueTop : List ScheduledConverter → Option ScheduledConverter
  | [] => none
  | e :: es => some (minEntry e es)

/-- The reschedule period pushed at naoqi_driver.cpp line 299:
`schedule + Duration(0, (1.0f / frequency) * 1e9)`, i.e. 1/frequency seconds
(float rounding abstracted per the spec's design notes). -/
def period (f : ℚ) : Time := 1 / f

/-- The action set computed for one dispatch in Driver::rosIteration (lines
253-281).  `lock_free` models whether the non-blocking try-lock of
`mutex_record_` succeeded for this tick. -/
def tickActions (s : Driver) (lock_free : Bool) (conv : Converter) : List MessageAction :=
  (if s.publish_enabled_ &&
      (match mapFind s.pub_map_ conv.name with
       | some p => p.subscribed
       | none => false) then [MessageAction.PUBLISH] else [])
  ++ (if lock_free && s.record_enabled_ &&
      (match mapFind s.rec_map_ conv.name with
       | some r => r.subscribed
       | none => false) then [MessageAction.RECORD] else [])
  ++ (if s.log_enabled_ && (mapFind s.rec_map_ conv.name).isSome &&
      !(conv.frequency == 0) then [MessageAction.LOG] else [])

/-- Driver::rosIteration (lines 242-314), restricted to its effects on the
modelled state: the dispatch decision and the pop/reschedule of the priority
queue.  The sleeps and the ROS spin have no effect on the modelled state;
`now` is the value of `this->now()` (note that the queue update never reads
it: the new schedule is computed from the popped entry's own schedule).
Returns the new state together with the action set handed to callAll (empty
when nothing was dispatched).  An out-of-bounds `converters_[conv_index]`
access is undefined behaviour in the C++; it is modelled as an error stutter
leaving the state unchanged. -/
def rosIteration (s : Driver) (lock_free : Bool) (now : Time) :
    Driver × List MessageAction :=
  match queueTop s.conv_queue_ with
  | none => (s, [])
  | some e =>
    match s.converters_[e.conv_index_]? with
    | none => (s, [])
    | some conv =>
      let actions := tickActions s lock_free conv
      let q1 := s.conv_queue_.erase e
      let q2 := if conv.frequency ≠ 0 then
          q1 ++ [{ schedule_ := e.schedule_ + period conv.frequency
                   conv_index_ := e.conv_index_ }]
        else q1
      ({ s with conv_queue_ := q2 }, actions)

/-- Driver::registerConverter(converter&) (lines 478-485): append to
`converters_` and seed the queue with ScheduledConverter(now, index). -/
def registerConverter (s : Driver) (conv : Converter) (now : Time) : Driver :=
  { s with
    converters_ := s.converters_ ++ [conv]
    conv_queue_ := s.conv_queue_ ++
      [{ schedule_ := now, conv_index_ := s.converters_.length }] }

/-- Driver::registerPublisher(name, pub) (lines 487-495): a plain
std::map::insert; the existing entry is kept when the name is already present
and no failure is reported (pub.reset only rebinds the transport and has no
effect on the modelled observation). -/
def registerPublisher (s : Driver) (conv_name : String) (pub : Publisher) : Driver :=
  { s with pub_map_ := mapInsert s.pub_map_ conv_name pub }

/-- Driver::registerRecorder(name, rec, frequency) (lines 497-503): a plain
std::map::insert, same duplicate behaviour as registerPublisher. -/
def registerRecorder (s : Driver) (conv_name : String) (rec : Recorder) : Driver :=
  { s with rec_map_ := mapInsert s.rec_map_ conv_name rec }

/-- Driver::registerConverter(conv, pub, rec) (lines 512-517). -/
def registerConverterPubRec (s : Driver) (conv : Converter) (pub : Publisher)
    (rec : Recorder) (now : Time) : Driver :=
  registerRecorder (registerPublisher (registerConverter s conv now) conv.name pub)
    conv.name rec

/-- naoqi::dataType::DataType (0 = None, 1 = Float, 2 = Int, 3 = String,
4 = Bool). -/
inductive DataType where
  | none
  | float
  | int
  | string
  | bool
  deriving DecidableEq

/-- Modelled from the spec: Driver::_registerMemoryConverter<P,R,C>(key,
frequency) lives in the missing public header; per the spec's registration
surface it builds a publisher, a recorder and a converter for the key and
registers them through the three-argument registerConverter path of the
source. -/
def registerMemoryConverterTyped (s : Driver) (key : String) (frequency : ℚ)
    (now : Time) : Driver :=
  registerConverterPubRec s { name := key, frequency := frequency }
    { subscribed := false }
    { subscribed := false, buffer_duration := bufferDefaultDuration
      writeDumpThrows := false }
    now

/-- Driver::registerMemoryConverter(key, frequency, type) (lines 531-591).
`getData_ok` models whether the ALMemory getData call succeeded; `inferred`
models the result of helpers::naoqi::getDataType when the caller passed
dataType::None (`Option.none` = the inference threw). -/
def registerMemoryConverter (s : Driver) (key : String) (frequency : ℚ)
    (ty : DataType) (getData_ok : Bool) (inferred : Option DataType)
    (now : Time) : Bool × Driver :=
  if !getData_ok then (false, s)
  else
    match (if ty = DataType.none then inferred else some ty) with
    | Option.none => (false, s)
    | some DataType.none => (false, s)
    | some _ => (true, registerMemoryConverterTyped s key frequency now)

/-- Driver::setBufferDuration (lines 460-471): set the buffer horizon on every
recorder and every event source, then store it. -/
def setBufferDuration (s : Driver) (d : ℚ) : Driver :=
  { s with
    rec_map_ := s.rec_map_.map (fun p => (p.1, { p.2 with buffer_duration := d }))
    event_map_ := s.event_map_.map (fun p => (p.1, { p.2 with buffer_duration := d }))
    buffer_duration_ := d }

/-- Driver::getBufferDuration (lines 473-476): a pure read of
`buffer_duration_` (the source method only returns the member, mutating
nothing, hence it embeds as a function of the state). -/
def getBufferDuration (s : Driver) : ℚ := s.buffer_duration_

/-- Driver::stopRecording (lines 1142-1159): close the bag, clear
record_enabled_, unsubscribe every recorder that matches a registered
converter's name, clear every event source's recording flag. -/
def stopRecording (s : Driver) : Driver :=
  let convNames := s.converters_.map (fun c => c.name)
  { s with
    record_enabled_ := false
    rec_map_ := s.rec_map_.map (fun p =>
      if convNames.contains p.1 then (p.1, { p.2 with subscribed := false }) else p)
    event_map_ := s.event_map_.map (fun p => (p.1, { p.2 with is_recording := false }))
    recorder_ := s.recorder_.stopRecord.2 }

/-- Driver::stop (lines 1171-1183): stopProcess on every event source, then
clear `converters_`, `subscribers_` and `event_map_`.  The source leaves
`pub_map_`, `rec_map_` and `conv_queue_` untouched.  (The stopProcess calls
mutate entries that are cleared immediately afterwards, so they leave no
trace in the final state.) -/
def stop (s : Driver) : Driver :=
  { s with
    keep_looping := false
    event_map_ := []
    converters_ := []
    subscribers_ := [] }

/-- The outcome of minidump / minidumpConverters.  The source reports errors
as strings; they are mapped to constructors: `bufferingDisabled` = "Log is
not enabled ...", `storageExhausted` = "No more space on robot ...",
`noMatchingSinks` = "Could not find any topic in converters ...", `ok id` =
the bag identity returned by GlobalRecorder::stopRecord, `thrown` = a
writeDump call raised and the exception escaped the function. -/
inductive DumpOutcome where
  | bufferingDisabled
  | storageExhausted
  | noMatchingSinks
  | ok (container : String)
  | thrown
  deriving DecidableEq

/-- helpers::filesystem::folderMaximumSize (the storage ceiling checked before
a dump; the constant lives in a helper header outside the provided sources,
its value is irrelevant to every claim). -/
def folderMaximumSize : ℤ := 2000000000

/-- Whether iterating writeDump over the event map raises somewhere. -/
def anyEventThrows (m : List (String × Event)) : Bool :=
  m.any (fun p => p.2.writeDumpThrows)

/-- Whether iterating writeDump over the recorder map raises somewhere. -/
def anyRecThrows (m : List (String × Recorder)) : Bool :=
  m.any (fun p => p.2.writeDumpThrows)

/-- The isDumping(b) loop over the event map used by both dump functions. -/
def setDumping (m : List (String × Event)) (b : Bool) : List (String × Event) :=
  m.map (fun p => (p.1, { p.2 with is_dumping := b }))

/-- Driver::minidump (lines 316-373).  The writeDump loops over the event map
and the recorder map only write buffered data into the external bag; their
sole modelled effect is success or failure.  When one raises, the exception
escapes minidump: the function exits with log_enabled_ still false and the
dumping flags still set, because the restoration code at lines 366-371 is
straight-line code, not a scope guard. -/
def minidump (s : Driver) (pfx : String) : DumpOutcome × Driver :=
  if !s.log_enabled_ then (DumpOutcome.bufferingDisabled, s)
  else if s.folder_files_size > folderMaximumSize then (DumpOutcome.storageExhausted, s)
  else
    let s1 := if s.record_enabled_ then stopRecording s else s
    let s2 := { s1 with log_enabled_ := false
                        event_map_ := setDumping s1.event_map_ true }
    let s3 := { s2 with recorder_ := s2.recorder_.startRecord pfx }
    if anyEventThrows s3.event_map_ || anyRecThrows s3.rec_map_ then
      (DumpOutcome.thrown, s3)
    else
      let s4 := { s3 with log_enabled_ := true
                          event_map_ := setDumping s3.event_map_ false }
      let stopped := s4.recorder_.stopRecord
      (DumpOutcome.ok stopped.1, { s4 with recorder_ := stopped.2 })

/-- The per-name flush loop of Driver::minidumpConverters (lines 414-440): for
each selected name, look it up among the recorders and then among the events;
the first match opens the bag (startRecord) if it is not open yet; a matched
sink whose writeDump raises aborts the loop with the exception.  Returns
(is_started, recorder state, whether a writeDump raised). -/
def mdcLoop (recm : List (String × Recorder)) (evm : List (String × Event))
    (pfx : String) : List String → Bool → GlobalRecorder →
    Bool × GlobalRecorder × Bool
  | [], started, g => (started, g, false)
  | n :: ns, started, g =>
    match mapFind recm n with
    | some r =>
      let g1 := if started then g else g.startRecord pfx
      if r.writeDumpThrows then (true, g1, true)
      else mdcLoop recm evm pfx ns true g1
    | Option.none =>
      match mapFind evm n with
      | some ev =>
        let g1 := if started then g else g.startRecord pfx
        if ev.writeDumpThrows then (true, g1, true)
        else mdcLoop recm evm pfx ns true g1
      | Option.none => mdcLoop recm evm pfx ns started g

/-- Driver::minidumpConverters (lines 375-458).  Same entry checks as
minidump; then the selected names are flushed by mdcLoop; buffering is
restored by the straight-line code at lines 441-446 (so it is skipped when a
writeDump raises); finally the bag is closed and its identity returned if at
least one flush occurred, otherwise the NoMatchingSinks error is returned
with no container ever opened. -/
def minidumpConverters (s : Driver) (pfx : String) (names : List String) :
    DumpOutcome × Driver :=
  if !s.log_enabled_ then (DumpOutcome.bufferingDisabled, s)
  else if s.folder_files_size > folderMaximumSize then (DumpOutcome.storageExhausted, s)
  else
    let s1 := if s.record_enabled_ then stopRecording s else s
    let s2 := { s1 with log_enabled_ := false
                        event_map_ := setDumping s1.event_map_ true }
    let res := mdcLoop s2.rec_map_ s2.event_map_ pfx names false s2.recorder_
    if res.2.2 then (DumpOutcome.thrown, { s2 with recorder_ := res.2.1 })
    else
      let s3 := { s2 with recorder_ := res.2.1
                          log_enabled_ := true
                          event_map_ := setDumping s2.event_map_ false }
      if res.1 then
        let stopped := s3.recorder_.stopRecord
        (DumpOutcome.ok stopped.1, { s3 with recorder_ := stopped.2 })
      else (DumpOutcome.noMatchingSinks, s3)

/-- The queue entries scheduled for converter index i. -/
def entriesFor (i : Nat) (q : List ScheduledConverter) : List ScheduledConverter :=
  q.filter (fun e => e.conv_index_ == i)

/-- Whether every queue entry's index is in bounds for `converters_` — the
side condition that makes the tick's `converters_[conv_index]` lookup safe. -/
def queueIndicesBounded (s : Driver) : Bool :=
  s.conv_queue_.all (fun e => decide (e.conv_index_ < s.converters_.length))

/-- One step of the operations that feed the scheduler queue: a rosIteration
tick (with an arbitrary try-lock outcome and clock value) or a
registerConverter call. -/
inductive SchedStep : Driver → Driver → Prop
  | iter (s : Driver) (lock_free : Bool) (now : Time) :
      SchedStep s (rosIteration s lock_free now).1
  | reg (s : Driver) (conv : Converter) (now : Time) :
      SchedStep s (registerConverter s conv now)

/-- Reflexive-transitive closure of SchedStep. -/
inductive SchedReach : Driver → Driver → Prop
  | refl (s : Driver) : SchedReach s s
  | tail {s t u : Driver} : SchedReach s t → SchedStep t u → SchedReach s u

/-- A scheduler-or-registration step that does not dispatch converter index i:
a registration, or a tick whose queue is empty or whose top entry has a
different index. -/
inductive StepAvoiding (i : Nat) : Driver → Driver → Prop
  | iter (s : Driver) (lock_free : Bool) (now : Time)
      (h : ∀ e, queueTop s.conv_queue_ = some e → e.conv_index_ ≠ i) :
      StepAvoiding i s (rosIteration s lock_free now).1
  | reg (s : Driver) (conv : Converter) (now : Time) :
      StepAvoiding i s (registerConverter s conv now)

/-- Reflexive-transitive closure of StepAvoiding. -/
inductive ReachAvoiding (i : Nat) : Driver → Driver → Prop
  | refl (s : Driver) : ReachAvoiding i s s
  | tail {s t u : Driver} :
      ReachAvoiding i s t → StepAvoiding i t u → ReachAvoiding i s u

/-- The states reachable from the freshly constructed driver through the three
operations registerConverter, rosIteration and stop. -/
inductive Reachable : Driver → Prop
  | init : Reachable initDriver
  | reg {s : Driver} (conv : Converter) (now : Time) :
      Reachable s → Reachable (registerConverter s conv now)
  | iter {s : Driver} (lock_free : Bool) (now : Time) :
      Reachable s → Reachable (rosIteration s lock_free now).1
  | halt {s : Driver} : Reachable s → Reachable (stop s)

/-- The states reachable through registerConverter and rosIteration without
ever calling stop. -/
inductive ReachableNoStop : Driver → Prop
  | init : ReachableNoStop initDriver
  | reg {s : Driver} (conv : Converter) (now : Time) :
      ReachableNoStop s → ReachableNoStop (registerConverter s conv now)
  | iter {s : Driver} (lock_free : Bool) (now : Time) :
      ReachableNoStop s → ReachableNoStop (rosIteration s lock_free now).1

/-- Invariant for the drift-freedom argument: the queue holds exactly one entry
for converter index i, scheduled at time t, and i is a live index. -/
def uniqueEntryAt (i : Nat) (t : Time) (s : Driver) : Prop :=
  entriesFor i s.conv_queue_ = [{ schedule_ := t, conv_index_ := i }] ∧
  i < s.converters_.length

/-- Invariant for the fire-once argument: the queue holds no entry for
converter index i, and i is a live index (so a later registration never reuses
it). -/
def noEntryFor (i : Nat) (s : Driver) : Prop :=
  entriesFor i s.conv_queue_ = [] ∧ i < s.converters_.length

/-- A driver holding one publisher, one recorder and one event source, used to
exhibit what stop() does and does not clear. -/
def stopSample : Driver :=
  { initDriver with
    pub_map_ := [("sonar", { subscribed := true })]
    rec_map_ := [("sonar",
      { subscribed := true, buffer_duration := 10, writeDumpThrows := false })]
    event_map_ := [("audio",
      { is_publishing := true, is_recording := false, is_dumping := false
        processing := true, buffer_duration := 10, writeDumpThrows := false })] }

/-- A driver that passes the dump entry checks but whose first event sink's
writeDump raises while the second one's succeeds. -/
def throwSample : Driver :=
  { initDriver with
    log_enabled_ := true
    event_map_ :=
      [("bumper",
        { is_publishing := false, is_recording := false, is_dumping := false
          processing := true, buffer_duration := 10, writeDumpThrows := true }),
       ("head_touch",
        { is_publishing := false, is_recording := false, is_dumping := false
          processing := true, buffer_duration := 10, writeDumpThrows := false })] }

/-- A driver with buffering enabled but not a single persist sink or event
source registered. -/
def emptySinksSample : Driver := { initDriver with log_enabled_ := true }

/-- A driver with buffering enabled and one well-behaved recorder, for the
dump witnesses. -/
def dumpSample : Driver :=
  { initDriver with
    log_enabled_ := true
    rec_map_ := [("laser",
      { subscribed := false, buffer_duration := 10, writeDumpThrows := false })]
    event_map_ := [("audio",
      { is_publishing := false, is_recording := false, is_dumping := false
        processing := true, buffer_duration := 10, writeDumpThrows := false })] }

/-- A driver whose queue holds one dispatchable converter of frequency 1 Hz
with a subscribed publisher. -/
def oneHzSample : Driver :=
  { initDriver with
    publish_enabled_ := true
    converters_ := [{ name := "sonar", frequency := 1 }]
    conv_queue_ := [{ schedule_ := 0, conv_index_ := 0 }]
    pub_map_ := [("sonar", { subscribed := true })] }

/-- A driver whose queue holds one dispatchable converter of frequency 0 (the
fire-once info converter pattern). -/
def zeroFreqSample : Driver :=
  { initDriver with
    converters_ := [{ name := "info", frequency := 0 }]
    conv_queue_ := [{ schedule_ := 0, conv_index_ := 0 }] }

/-! Helper lemmas about the map and queue embeddings. -/

theorem mapFind_isSome_any {V : Type} {m : List (String × V)} {k : String}
    (h : (mapFind m k).isSome = true) : m.any (fun p => p.1 == k) = true := by
  unfold mapFind at h
  cases hf : m.find? (fun p => p.1 == k) with
  | none => rw [hf] at h; simp at h
  | some pr =>
    have hmem := List.mem_of_find?_eq_some hf
    have hp := List.find?_some hf
    exact List.any_eq_true.mpr ⟨pr, hmem, hp⟩

theorem mapInsert_found {V : Type} {m : List (String × V)} {k : String} (v : V)
    (h : (mapFind m k).isSome = true) : mapInsert m k v = m := by
  simp [mapInsert, mapFind_isSome_any h]

theorem mapFind_mem {V : Type} {m : List (String × V)} {k : String} {v : V}
    (h : mapFind m k = some v) : (k, v) ∈ m := by
  unfold mapFind at h
  cases hf : m.find? (fun p => p.1 == k) with
  | none => rw [hf] at h; cases h
  | some pr =>
    rw [hf] at h
    have hk : pr.1 = k := by simpa using List.find?_some hf
    have hv : pr.2 = v := by simpa using h
    have hm := List.mem_of_find?_eq_some hf
    rw [← hk, ← hv, Prod.mk.eta]
    exact hm

theorem mapFind_rec_no_throw {m : List (String × Recorder)} {n : String}
    {r : Recorder} (h : mapFind m n = some r) (hall : anyRecThrows m = false) :
    r.writeDumpThrows = false := by
  have hm := mapFind_mem h
  have hall2 : ∀ a b, (a, b) ∈ m → b.writeDumpThrows = false := by
    simpa [anyRecThrows, List.any_eq_false] using hall
  exact hall2 n r hm

theorem mapFind_event_no_throw {m : List (String × Event)} {n : String}
    {ev : Event} (h : mapFind m n = some ev) (hall : anyEventThrows m = false) :
    ev.writeDumpThrows = false := by
  have hm := mapFind_mem h
  have hall2 : ∀ a b, (a, b) ∈ m → b.writeDumpThrows = false := by
    simpa [anyEventThrows, List.any_eq_false] using hall
  exact hall2 n ev hm

theorem anyEventThrows_setDumping (m : List (String × Event)) (b : Bool) :
    anyEventThrows (setDumping m b) = anyEventThrows m := by
  unfold anyEventThrows setDumping
  rw [List.any_map]
  rfl

theorem anyEventThrows_stopRecording (s : Driver) :
    anyEventThrows (stopRecording s).event_map_ = anyEventThrows s.event_map_ := by
  unfold anyEventThrows stopRecording
  rw [List.any_map]
  rfl

theorem anyRecThrows_stopRecording (s : Driver) :
    anyRecThrows (stopRecording s).rec_map_ = anyRecThrows s.rec_map_ := by
  unfold anyRecThrows stopRecording
  rw [List.any_map]
  congr 1
  funext x
  simp only [Function.comp]
  split <;> rfl

theorem setDumping_false_all (m : List (String × Event)) :
    ∀ p ∈ setDumping m false, p.2.is_dumping = false := by
  intro p hp
  rcases List.mem_map.mp hp with ⟨q, -, rfl⟩
  rfl

theorem mapFind_setDumping (m : List (String × Event)) (b : Bool) (n : String) :
    (mapFind (setDumping m b) n).isSome = (mapFind m n).isSome := by
  induction m with
  | nil => rfl
  | cons p m ih =>
    unfold mapFind setDumping at *
    by_cases h : p.1 == n
    · rw [List.map_cons, List.find?_cons_of_pos, List.find?_cons_of_pos] <;> simp [h]
    · rw [List.map_cons, List.find?_cons_of_neg, List.find?_cons_of_neg]
      · exact ih
      · simpa using h
      · simpa using h

theorem minEntry_mem (e : ScheduledConverter) (xs : List ScheduledConverter) :
    minEntry e xs ∈ e :: xs := by
  induction xs generalizing e with
  | nil => exact List.mem_singleton.mpr rfl
  | cons x xs ih =>
    show minEntry (if scBefore x e then x else e) xs ∈ e :: x :: xs
    by_cases hb : scBefore x e
    · rw [if_pos hb]
      rcases List.mem_cons.mp (ih x) with h1 | h1
      · simp [h1]
      · exact List.mem_cons_of_mem e (List.mem_cons_of_mem x h1)
    · rw [if_neg hb]
      rcases List.mem_cons.mp (ih e) with h1 | h1
      · simp [h1]
      · exact List.mem_cons_of_mem e (List.mem_cons_of_mem x h1)

theorem queueTop_mem {q : List ScheduledConverter} {e : ScheduledConverter}
    (h : queueTop q = some e) : e ∈ q := by
  cases q with
  | nil => cases h
  | cons x xs =>
    have hx : minEntry x xs = e := by simpa [queueTop] using h
    exact hx ▸ minEntry_mem x xs

theorem filter_erase_of_neg (p : ScheduledConverter → Bool)
    {e : ScheduledConverter} (hp : p e = false) :
    ∀ q : List ScheduledConverter, (q.erase e).filter p = q.filter p := by
  intro q
  induction q with
  | nil => rfl
  | cons a q ih =>
    by_cases hae : a = e
    · subst hae
      rw [List.erase_cons_head]
      simp [List.filter_cons, hp]
    · rw [List.erase_cons_tail]
      · simp only [List.filter_cons]
        cases hpa : p a <;> simp [ih]
      · simpa using hae

theorem filter_erase_single (p : ScheduledConverter → Bool) :
    ∀ (q : List ScheduledConverter) (e : ScheduledConverter),
      q.filter p = [e] → e ∈ q → (q.erase e).filter p = [] := by
  intro q
  induction q with
  | nil => intro e _ he; cases he
  | cons a q ih =>
    intro e hq he
    have hpe : p e = true := by
      have : e ∈ (a :: q).filter p := by
        rw [hq]; exact List.mem_singleton.mpr rfl
      exact (List.mem_filter.mp this).2
    by_cases hae : a = e
    · subst hae
      rw [List.erase_cons_head]
      rw [List.filter_cons_of_pos] at hq
      · injection hq
      · exact hpe
    · rw [List.erase_cons_tail]
      · cases hpa : p a with
        | true =>
          rw [List.filter_cons_of_pos] at hq
          · injection hq with h1 h2
            exact absurd h1 hae
          · exact hpa
        | false =>
          simp only [List.filter_cons, hpa, Bool.false_eq_true, if_false] at hq ⊢
          refine ih e hq ?_
          rcases List.mem_cons.mp he with h1 | h1
          · exact absurd h1.symm hae
          · exact h1
      · simpa using hae

theorem rosIteration_empty {s : Driver} (lock_free : Bool) (now : Time)
    (h : queueTop s.conv_queue_ = none) : rosIteration s lock_free now = (s, []) := by
  unfold rosIteration
  rw [h]

theorem rosIteration_oob {s : Driver} {e : ScheduledConverter} (lock_free : Bool)
    (now : Time) (htop : queueTop s.conv_queue_ = some e)
    (h : s.converters_[e.conv_index_]? = none) :
    rosIteration s lock_free now = (s, []) := by
  simp only [rosIteration, htop, h]

theorem rosIteration_dispatch {s : Driver} {e : ScheduledConverter}
    {conv : Converter} (lock_free : Bool) (now : Time)
    (htop : queueTop s.conv_queue_ = some e)
    (hconv : s.converters_[e.conv_index_]? = some conv) :
    rosIteration s lock_free now =
      ({ s with conv_queue_ :=
          if conv.frequency ≠ 0 then
            s.conv_queue_.erase e ++
              [{ schedule_ := e.schedule_ + period conv.frequency
                 conv_index_ := e.conv_index_ }]
          else s.conv_queue_.erase e },
       tickActions s lock_free conv) := by
  simp only [rosIteration, htop, hconv]

theorem entriesFor_append (i : Nat) (q1 q2 : List ScheduledConverter) :
    entriesFor i (q1 ++ q2) = entriesFor i q1 ++ entriesFor i q2 := by
  unfold entriesFor
  exact List.filter_append _ _

theorem uniqueEntryAt_step {i : Nat} {t : Time} {s u : Driver}
    (hs : StepAvoiding i s u) (h : uniqueEntryAt i t s) : uniqueEntryAt i t u := by
  obtain ⟨hq, hlen⟩ := h
  cases hs with
  | reg conv now =>
    refine ⟨?_, by simp [registerConverter]; omega⟩
    unfold registerConverter
    simp only []
    rw [entriesFor_append, hq]
    have hnew : ((⟨now, s.converters_.length⟩ : ScheduledConverter).conv_index_ == i) = false := by
      simp only [beq_eq_false_iff_ne]
      intro hEq
      exact absurd (hEq ▸ hlen) (lt_irrefl _)
    simp [entriesFor, List.filter_cons, hnew]
  | iter lock_free now havoid =>
    cases hqt : queueTop s.conv_queue_ with
    | none =>
      rw [rosIteration_empty lock_free now hqt]
      exact ⟨hq, hlen⟩
    | some e =>
      have hne := havoid e hqt
      cases hcv : s.converters_[e.conv_index_]? with
      | none =>
        rw [rosIteration_oob lock_free now hqt hcv]
        exact ⟨hq, hlen⟩
      | some conv =>
        rw [rosIteration_dispatch lock_free now hqt hcv]
        have hpe : ((fun x => x.conv_index_ == i) e) = false := by
          simpa using hne
        have herase : entriesFor i (s.conv_queue_.erase e) = entriesFor i s.conv_queue_ :=
          filter_erase_of_neg _ hpe _
        refine ⟨?_, hlen⟩
        show entriesFor i (if conv.frequency ≠ 0 then _ else _) = _
        split
        · rw [entriesFor_append, herase, hq]
          have hnew : ((⟨e.schedule_ + period conv.frequency, e.conv_index_⟩ :
              ScheduledConverter).conv_index_ == i) = false := by
            simpa using hne
          simp [entriesFor, List.filter_cons, hnew]
        · rw [herase]
          exact hq

theorem uniqueEntryAt_reach {i : Nat} {t : Time} {s u : Driver}
    (hr : ReachAvoiding i s u) (h : uniqueEntryAt i t s) : uniqueEntryAt i t u := by
  induction hr with
  | refl => exact h
  | tail hr hs ih => exact uniqueEntryAt_step hs ih

theorem noEntryFor_step {i : Nat} {s u : Driver}
    (hs : SchedStep s u) (h : noEntryFor i s) : noEntryFor i u := by
  obtain ⟨hq, hlen⟩ := h
  cases hs with
  | reg conv now =>
    refine ⟨?_, by simp [registerConverter]; omega⟩
    unfold registerConverter
    simp only []
    rw [entriesFor_append, hq]
    have hnew : ((⟨now, s.converters_.length⟩ : ScheduledConverter).conv_index_ == i) = false := by
      simp only [beq_eq_false_iff_ne]
      intro hEq
      exact absurd (hEq ▸ hlen) (lt_irrefl _)
    simp [entriesFor, List.filter_cons, hnew]
  | iter lock_free now =>
    cases hqt : queueTop s.conv_queue_ with
    | none =>
      rw [rosIteration_empty lock_free now hqt]
      exact ⟨hq, hlen⟩
    | some e =>
      have hne : e.conv_index_ ≠ i := by
        intro hEq
        have hmem : e ∈ entriesFor i s.conv_queue_ :=
          List.mem_filter.mpr ⟨queueTop_mem hqt, by simp [hEq]⟩
        rw [hq] at hmem
        cases hmem
      cases hcv : s.converters_[e.conv_index_]? with
      | none =>
        rw [rosIteration_oob lock_free now hqt hcv]
        exact ⟨hq, hlen⟩
      | some conv =>
        rw [rosIteration_dispatch lock_free now hqt hcv]
        have hpe : ((fun x => x.conv_index_ == i) e) = false := by
          simpa using hne
        have herase : entriesFor i (s.conv_queue_.erase e) = entriesFor i s.conv_queue_ :=
          filter_erase_of_neg _ hpe _
        refine ⟨?_, hlen⟩
        show entriesFor i (if conv.frequency ≠ 0 then _ else _) = _
        split
        · rw [entriesFor_append, herase, hq]
          have hnew : ((⟨e.schedule_ + period conv.frequency, e.conv_index_⟩ :
              ScheduledConverter).conv_index_ == i) = false := by
            simpa using hne
          simp [entriesFor, List.filter_cons, hnew]
        · rw [herase]
          exact hq

theorem noEntryFor_reach {i : Nat} {s u : Driver}
    (hr : SchedReach s u) (h : noEntryFor i s) : noEntryFor i u := by
  induction hr with
  | refl => exact h
  | tail hr hs ih => exact noEntryFor_step hs ih

theorem mdcLoop_no_throw_eq (recm : List (String × Recorder))
    (evm : List (String × Event)) (pfx : String)
    (hr : anyRecThrows recm = false) (he : anyEventThrows evm = false) :
    ∀ (ns : List String) (started : Bool) (g : GlobalRecorder),
      mdcLoop recm evm pfx ns started g =
        (started || ns.any (fun n => (mapFind recm n).isSome || (mapFind evm n).isSome),
         (if started then g
          else if ns.any (fun n => (mapFind recm n).isSome || (mapFind evm n).isSome)
            then g.startRecord pfx else g),
         false) := by
  intro ns
  induction ns with
  | nil => intro started g; cases started <;> simp [mdcLoop]
  | cons n ns ih =>
    intro started g
    cases hfr : mapFind recm n with
    | some r =>
      have hth : r.writeDumpThrows = false := mapFind_rec_no_throw hfr hr
      cases started <;> simp [mdcLoop, hfr, hth, ih, List.any_cons]
    | none =>
      cases hfe : mapFind evm n with
      | some ev =>
        have hth : ev.writeDumpThrows = false := mapFind_event_no_throw hfe he
        cases started <;> simp [mdcLoop, hfr, hfe, hth, ih, List.any_cons]
      | none =>
        cases started <;> simp [mdcLoop, hfr, hfe, ih, List.any_cons]

theorem minidump_no_throw (s : Driver) (pfx : String)
    (hlog : s.log_enabled_ = true)
    (hsize : ¬ s.folder_files_size > folderMaximumSize)
    (hev : anyEventThrows s.event_map_ = false)
    (hrc : anyRecThrows s.rec_map_ = false) :
    minidump s pfx =
      (DumpOutcome.ok pfx,
       { (if s.record_enabled_ then stopRecording s else s) with
         log_enabled_ := true
         event_map_ := setDumping
           (setDumping (if s.record_enabled_ then stopRecording s else s).event_map_ true) false
         recorder_ := { is_recording := false, current_bag := none } }) := by
  have hev1 : anyEventThrows
      (if s.record_enabled_ then stopRecording s else s).event_map_ = false := by
    split
    · rw [anyEventThrows_stopRecording]; exact hev
    · exact hev
  have hrc1 : anyRecThrows
      (if s.record_enabled_ then stopRecording s else s).rec_map_ = false := by
    split
    · rw [anyRecThrows_stopRecording]; exact hrc
    · exact hrc
  unfold minidump
  rw [hlog]
  simp only [Bool.not_true, Bool.false_eq_true, if_false, hsize,
    anyEventThrows_setDumping, hev1, hrc1, Bool.or_self,
    GlobalRecorder.startRecord, GlobalRecorder.stopRecord]
  rfl

theorem minidumpConverters_no_throw (s : Driver) (pfx : String)
    (names : List String)
    (hlog : s.log_enabled_ = true)
    (hsize : ¬ s.folder_files_size > folderMaximumSize)
    (hev : anyEventThrows s.event_map_ = false)
    (hrc : anyRecThrows s.rec_map_ = false) :
    minidumpConverters s pfx names =
      (let s1 := if s.record_enabled_ then stopRecording s else s
       let matched := names.any (fun n =>
         (mapFind s1.rec_map_ n).isSome ||
         (mapFind (setDumping s1.event_map_ true) n).isSome)
       ((if matched then DumpOutcome.ok pfx else DumpOutcome.noMatchingSinks),
        { s1 with
          log_enabled_ := true
          event_map_ := setDumping (setDumping s1.event_map_ true) false
          recorder_ := if matched then
              { is_recording := false, current_bag := none }
            else s1.recorder_ })) := by
  have hev1 : anyEventThrows
      (setDumping (if s.record_enabled_ then stopRecording s else s).event_map_ true) = false := by
    rw [anyEventThrows_setDumping]
    split
    · rw [anyEventThrows_stopRecording]; exact hev
    · exact hev
  have hrc1 : anyRecThrows
      (if s.record_enabled_ then stopRecording s else s).rec_map_ = false := by
    split
    · rw [anyRecThrows_stopRecording]; exact hrc
    · exact hrc
  unfold minidumpConverters
  rw [hlog]
  simp only [Bool.not_true, Bool.false_eq_true, if_false, hsize,
    mdcLoop_no_throw_eq _ _ _ hrc1 hev1, Bool.false_or,
    GlobalRecorder.startRecord, GlobalRecorder.stopRecord]
  split <;> split <;> rfl

theorem publish_not_mem_ite (c : Bool) (a : MessageAction)
    (h : a ≠ MessageAction.PUBLISH) :
    MessageAction.PUBLISH ∉ (if c = true then [a] else []) := by
  have hne : MessageAction.PUBLISH ≠ a := Ne.symm h
  cases c <;> simp [hne]

theorem publish_mem_tickActions (s : Driver) (lock_free : Bool) (conv : Converter) :
    MessageAction.PUBLISH ∈ tickActions s lock_free conv ↔
      s.publish_enabled_ = true ∧
      ∃ p, mapFind s.pub_map_ conv.name = some p ∧ p.subscribed = true := by
  have h2 := publish_not_mem_ite (lock_free && s.record_enabled_ &&
      (match mapFind s.rec_map_ conv.name with
       | some r => r.subscribed
       | none => false)) MessageAction.RECORD (by intro h; cases h)
  have h3 := publish_not_mem_ite (s.log_enabled_ &&
      (mapFind s.rec_map_ conv.name).isSome &&
      !(conv.frequency == 0)) MessageAction.LOG (by intro h; cases h)
  rcases hp : mapFind s.pub_map_ conv.name with _ | p
  · cases hpe : s.publish_enabled_ <;>
      simp [tickActions, hp, hpe, h2, h3, List.mem_append]
  · rcases p with ⟨ps⟩
    cases hpe : s.publish_enabled_ <;> cases ps <;>
      simp [tickActions, hp, hpe, h2, h3, List.mem_append]

/-! Claim theorems. -/

/-- Claim C2 (confirmed): on every scheduler tick that dispatches a converter,
the PUBLISH action is selected iff publish_enabled_ is true AND the
converter's name is in the publisher map AND that publisher's isSubscribed()
is true — the equivalence is universal in the driver state, so it covers all
combinations of the flag, map-membership and subscription booleans. -/
theorem publish_action_iff (s : Driver) (lock_free : Bool) (now : Time)
    (e : ScheduledConverter) (conv : Converter)
    (htop : queueTop s.conv_queue_ = some e)
    (hconv : s.converters_[e.conv_index_]? = some conv) :
    MessageAction.PUBLISH ∈ (rosIteration s lock_free now).2 ↔
      s.publish_enabled_ = true ∧
      ∃ p, mapFind s.pub_map_ conv.name = some p ∧ p.subscribed = true := by
  rw [rosIteration_dispatch lock_free now htop hconv]
  exact publish_mem_tickActions s lock_free conv

/-- Witness for C2 at a concrete dispatching state (the hypotheses hold and
the equivalence is instantiated). -/
theorem publish_action_iff_witness :
    queueTop oneHzSample.conv_queue_ =
      some { schedule_ := 0, conv_index_ := 0 } ∧
    oneHzSample.converters_[(0 : Nat)]? = some { name := "sonar", frequency := 1 } ∧
    (MessageAction.PUBLISH ∈ (rosIteration oneHzSample true 0).2 ↔
      oneHzSample.publish_enabled_ = true ∧
      ∃ p, mapFind oneHzSample.pub_map_ "sonar" = some p ∧ p.subscribed = true) :=
  ⟨rfl, rfl,
   publish_action_iff oneHzSample true 0 { schedule_ := 0, conv_index_ := 0 }
     { name := "sonar", frequency := 1 } rfl rfl⟩

/-- Claim C5 (confirmed): every dump call made while buffering is disabled
(log_enabled_ = false) returns the BufferingDisabled error and leaves the
entire driver state — registries, flags and recorder — unchanged. -/
theorem dump_disabled_noop (s : Driver) (pfx : String) (names : List String)
    (h : s.log_enabled_ = false) :
    minidump s pfx = (DumpOutcome.bufferingDisabled, s) ∧
    minidumpConverters s pfx names = (DumpOutcome.bufferingDisabled, s) := by
  constructor
  · unfold minidump
    rw [h]
    rfl
  · unfold minidumpConverters
    rw [h]
    rfl

/-- Witness for C5 at the freshly constructed driver, whose log_enabled_ is
false. -/
theorem dump_disabled_noop_witness :
    initDriver.log_enabled_ = false ∧
    minidump initDriver "dump" = (DumpOutcome.bufferingDisabled, initDriver) ∧
    minidumpConverters initDriver "dump" ["laser"] =
      (DumpOutcome.bufferingDisabled, initDriver) :=
  ⟨rfl, dump_disabled_noop initDriver "dump" ["laser"] rfl⟩

/-- Claim C8 (counterexample): stop() is claimed to clear the emit-sink and
persist-sink registries; on a driver holding one publisher and one recorder
it leaves both maps untouched and non-empty — the source clears only
converters_, subscribers_ and event_map_. -/
theorem stop_leaves_sink_registries :
    (stop stopSample).pub_map_ ≠ [] ∧ (stop stopSample).rec_map_ ≠ [] := by
  decide

/-- Claim C8 (corrected): stop() sets keep_looping false (the terminal state),
halts and clears the async event registry, and clears the converter registry
and the subscriber list; but it leaves the emit-sink (publisher) registry, the
persist-sink (recorder) registry and the scheduling queue untouched. -/
theorem stop_clears_converters_events (s : Driver) :
    (stop s).keep_looping = false ∧
    (stop s).converters_ = [] ∧
    (stop s).subscribers_ = [] ∧
    (stop s).event_map_ = [] ∧
    (stop s).pub_map_ = s.pub_map_ ∧
    (stop s).rec_map_ = s.rec_map_ ∧
    (stop s).conv_queue_ = s.conv_queue_ :=
  ⟨rfl, rfl, rfl, rfl, rfl, rfl, rfl⟩

/-- Claim C7 (counterexample): two ad-hoc value registrations with the same
name are claimed to fail the second with a duplicate-name error; in the
source the second call succeeds — it returns true, with no error surfaced to
the caller. -/
theorem duplicate_registration_succeeds :
    (registerMemoryConverter
      (registerMemoryConverter initDriver "MemKey" 10 DataType.float true
        Option.none 0).2
      "MemKey" 10 DataType.float true Option.none 1).1 = true := by
  decide

/-- Claim C7 (corrected): registering under an already-present name leaves the
existing emit/persist sink entries in place (std::map::insert does not
overwrite), but no duplicate-name error is surfaced: the call reports success
(true) and appends and schedules one more converter under the same name. -/
theorem duplicate_registration_keeps_existing (s : Driver) (key : String)
    (freq : ℚ) (ty : DataType) (inferred : Option DataType) (now : Time)
    (hty : ty ≠ DataType.none)
    (hpub : (mapFind s.pub_map_ key).isSome = true)
    (hrec : (mapFind s.rec_map_ key).isSome = true) :
    (registerMemoryConverter s key freq ty true inferred now).1 = true ∧
    (registerMemoryConverter s key freq ty true inferred now).2.pub_map_ =
      s.pub_map_ ∧
    (registerMemoryConverter s key freq ty true inferred now).2.rec_map_ =
      s.rec_map_ ∧
    (registerMemoryConverter s key freq ty true inferred now).2.converters_ =
      s.converters_ ++ [{ name := key, frequency := freq }] := by
  have hstate : registerMemoryConverter s key freq ty true inferred now =
      (true, registerMemoryConverterTyped s key freq now) := by
    unfold registerMemoryConverter
    rw [if_neg (by simp), if_neg hty]
    cases ty <;> first | exact absurd rfl hty | rfl
  rw [hstate]
  unfold registerMemoryConverterTyped registerConverterPubRec registerRecorder
    registerPublisher registerConverter
  refine ⟨rfl, ?_, ?_, rfl⟩
  · exact mapInsert_found _ hpub
  · rw [mapInsert_found _ hpub]
    exact mapInsert_found _ hrec

/-- Witness for C7 (corrected) on the state produced by a first ad-hoc
registration, exercising a duplicate second registration. -/
theorem duplicate_registration_keeps_existing_witness :
    DataType.float ≠ DataType.none ∧
    ((mapFind (registerMemoryConverter initDriver "MemKey" 10 DataType.float true
        Option.none 0).2.pub_map_ "MemKey").isSome = true ∧
     (mapFind (registerMemoryConverter initDriver "MemKey" 10 DataType.float true
        Option.none 0).2.rec_map_ "MemKey").isSome = true) ∧
    (registerMemoryConverter (registerMemoryConverter initDriver "MemKey" 10
        DataType.float true Option.none 0).2
      "MemKey" 10 DataType.float true Option.none 1).1 = true ∧
    (registerMemoryConverter (registerMemoryConverter initDriver "MemKey" 10
        DataType.float true Option.none 0).2
      "MemKey" 10 DataType.float true Option.none 1).2.pub_map_ =
      (registerMemoryConverter initDriver "MemKey" 10 DataType.float true
        Option.none 0).2.pub_map_ ∧
    (registerMemoryConverter (registerMemoryConverter initDriver "MemKey" 10
        DataType.float true Option.none 0).2
      "MemKey" 10 DataType.float true Option.none 1).2.rec_map_ =
      (registerMemoryConverter initDriver "MemKey" 10 DataType.float true
        Option.none 0).2.rec_map_ ∧
    (registerMemoryConverter (registerMemoryConverter initDriver "MemKey" 10
        DataType.float true Option.none 0).2
      "MemKey" 10 DataType.float true Option.none 1).2.converters_ =
      (registerMemoryConverter initDriver "MemKey" 10 DataType.float true
        Option.none 0).2.converters_ ++ [{ name := "MemKey", frequency := 10 }] := by
  refine ⟨by decide, ⟨by decide, by decide⟩, ?_⟩
  exact duplicate_registration_keeps_existing _ "MemKey" 10 DataType.float
    Option.none 1 (by decide) (by decide) (by decide)

/-- Claim C10 (confirmed): for every duration d, setBufferDuration(d) followed
by getBufferDuration() round-trips to exactly d; every registered recorder and
every async event source has had its buffer duration set to d; and
getBufferDuration is a pure read of buffer_duration_ (it mutates nothing, so
it embeds as a function of the state). -/
theorem buffer_duration_roundtrip (s : Driver) (d : ℚ) :
    getBufferDuration (setBufferDuration s d) = d ∧
    (∀ p ∈ (setBufferDuration s d).rec_map_, p.2.buffer_duration = d) ∧
    (∀ p ∈ (setBufferDuration s d).event_map_, p.2.buffer_duration = d) ∧
    getBufferDuration (setBufferDuration s d) =
      (setBufferDuration s d).buffer_duration_ := by
  refine ⟨rfl, ?_, ?_, rfl⟩ <;>
  · intro p hp
    rcases List.mem_map.mp hp with ⟨q, -, rfl⟩
    rfl

/-- Claim C1 (counterexample): a dump on a driver that passes the buffering
and storage checks, but whose first of two event sinks' writeDump raises,
exits with buffering NOT restored: the exception escapes, log_enabled_ is
still false and every dumping flag is still true — the restoration code at
lines 366-371 is straight-line code, not a scope guard. -/
theorem minidump_restore_fails_on_throw :
    throwSample.log_enabled_ = true ∧
    ¬ throwSample.folder_files_size > folderMaximumSize ∧
    (minidump throwSample "mini").1 = DumpOutcome.thrown ∧
    (minidump throwSample "mini").2.log_enabled_ = false ∧
    ((minidump throwSample "mini").2.event_map_.all
      (fun p => p.2.is_dumping)) = true := by
  decide

/-- Claim C1 (corrected): whenever a dump call (minidump or
minidumpConverters) gets past the buffering-disabled and storage checks AND
no writeDump raises, buffering ingestion is restored before return —
log_enabled_ is true again and every event source's is_dumping flag is false,
on the success path and on the NoMatchingSinks failure path alike.  When a
writeDump does raise, the exception escapes with the restoration skipped (see
the counterexample), so the guarantee holds only for non-raising flushes. -/
theorem dump_restores_buffering_when_no_throw (s : Driver) (pfx : String)
    (names : List String)
    (hlog : s.log_enabled_ = true)
    (hsize : ¬ s.folder_files_size > folderMaximumSize)
    (hev : anyEventThrows s.event_map_ = false)
    (hrc : anyRecThrows s.rec_map_ = false) :
    ((minidump s pfx).2.log_enabled_ = true ∧
      ∀ p ∈ (minidump s pfx).2.event_map_, p.2.is_dumping = false) ∧
    ((minidumpConverters s pfx names).2.log_enabled_ = true ∧
      ∀ p ∈ (minidumpConverters s pfx names).2.event_map_,
        p.2.is_dumping = false) := by
  constructor
  · rw [minidump_no_throw s pfx hlog hsize hev hrc]
    exact ⟨rfl, setDumping_false_all _⟩
  · rw [minidumpConverters_no_throw s pfx names hlog hsize hev hrc]
    exact ⟨rfl, setDumping_false_all _⟩

/-- Witness for C1 (corrected) at a driver with one recorder and one event
source and no failing flush. -/
theorem dump_restores_buffering_when_no_throw_witness :
    (dumpSample.log_enabled_ = true ∧
     ¬ dumpSample.folder_files_size > folderMaximumSize ∧
     anyEventThrows dumpSample.event_map_ = false ∧
     anyRecThrows dumpSample.rec_map_ = false) ∧
    ((minidump dumpSample "mini").2.log_enabled_ = true ∧
      ∀ p ∈ (minidump dumpSample "mini").2.event_map_, p.2.is_dumping = false) ∧
    ((minidumpConverters dumpSample "mini" ["audio"]).2.log_enabled_ = true ∧
      ∀ p ∈ (minidumpConverters dumpSample "mini" ["audio"]).2.event_map_,
        p.2.is_dumping = false) :=
  ⟨⟨rfl, by decide, rfl, rfl⟩,
   dump_restores_buffering_when_no_throw dumpSample "mini" ["audio"] rfl
     (by decide) rfl rfl⟩

/-- Claim C6 (counterexample): minidump on a driver with not a single persist
sink or event source (zero flushes possible) still opens, finalizes and
returns the container identity instead of failing with NoMatchingSinks. -/
theorem minidump_ok_with_no_sinks :
    emptySinksSample.rec_map_ = [] ∧ emptySinksSample.event_map_ = [] ∧
    (minidump emptySinksSample "bag").1 = DumpOutcome.ok "bag" ∧
    (minidump emptySinksSample "bag").1 ≠ DumpOutcome.noMatchingSinks := by
  decide

/-- Claim C6 (corrected): for minidumpConverters the claim holds as stated —
if some selected name matches a persist sink or event source the container is
finalized and its identity returned, otherwise the call fails with
NoMatchingSinks and no container is ever opened (the recorder is untouched).
minidump, however, always finalizes and returns the container identity, even
when there are no sinks at all — its NoMatchingSinks branch does not exist in
the source. -/
theorem dump_finalize_or_no_matching (s : Driver) (pfx : String)
    (names : List String)
    (hlog : s.log_enabled_ = true)
    (hsize : ¬ s.folder_files_size > folderMaximumSize)
    (hre : s.record_enabled_ = false)
    (hev : anyEventThrows s.event_map_ = false)
    (hrc : anyRecThrows s.rec_map_ = false) :
    (minidump s pfx).1 = DumpOutcome.ok pfx ∧
    (if names.any (fun n =>
        (mapFind s.rec_map_ n).isSome || (mapFind s.event_map_ n).isSome) then
      (minidumpConverters s pfx names).1 = DumpOutcome.ok pfx
    else
      (minidumpConverters s pfx names).1 = DumpOutcome.noMatchingSinks ∧
      (minidumpConverters s pfx names).2.recorder_ = s.recorder_) := by
  constructor
  · rw [minidump_no_throw s pfx hlog hsize hev hrc]
  · rw [minidumpConverters_no_throw s pfx names hlog hsize hev hrc]
    have hs1 : (if s.record_enabled_ then stopRecording s else s) = s := by
      rw [hre]
      rfl
    have hcond : (names.any fun n =>
        (mapFind s.rec_map_ n).isSome ||
        (mapFind (setDumping s.event_map_ true) n).isSome) =
        (names.any fun n =>
        (mapFind s.rec_map_ n).isSome || (mapFind s.event_map_ n).isSome) := by
      congr 1
      funext n
      rw [mapFind_setDumping]
    simp only [hs1, hcond]
    split
    · rfl
    · exact ⟨rfl, rfl⟩

/-- Witness for C6 (corrected) at a driver with one recorder matching the
selected name. -/
theorem dump_finalize_or_no_matching_witness :
    (dumpSample.log_enabled_ = true ∧
     ¬ dumpSample.folder_files_size > folderMaximumSize ∧
     dumpSample.record_enabled_ = false ∧
     anyEventThrows dumpSample.event_map_ = false ∧
     anyRecThrows dumpSample.rec_map_ = false) ∧
    (minidump dumpSample "bag").1 = DumpOutcome.ok "bag" ∧
    (if ["laser"].any (fun n =>
        (mapFind dumpSample.rec_map_ n).isSome ||
        (mapFind dumpSample.event_map_ n).isSome) then
      (minidumpConverters dumpSample "bag" ["laser"]).1 = DumpOutcome.ok "bag"
    else
      (minidumpConverters dumpSample "bag" ["laser"]).1 =
        DumpOutcome.noMatchingSinks ∧
      (minidumpConverters dumpSample "bag" ["laser"]).2.recorder_ =
        dumpSample.recorder_) :=
  ⟨⟨rfl, by decide, rfl, rfl, rfl⟩,
   dump_finalize_or_no_matching dumpSample "bag" ["laser"] rfl (by decide) rfl
     rfl rfl⟩

/-- Claim C3 (confirmed): for a dispatched converter of frequency f ≠ 0 the
reschedule is computed from the dispatched entry's own schedule, never from
the clock (first conjunct: the tick result does not depend on now); and the
next dispatch of that converter — after any interleaving of other ticks and
registrations — fires at exactly the previous schedule plus 1/f, so
successive scheduled dispatch timestamps differ by exactly 1/f with no drift
under variable invocation times. -/
theorem reschedule_exact_period (s : Driver) (e : ScheduledConverter)
    (conv : Converter) (lock_free : Bool) (now : Time)
    (htop : queueTop s.conv_queue_ = some e)
    (hconv : s.converters_[e.conv_index_]? = some conv)
    (hf : conv.frequency ≠ 0)
    (huniq : entriesFor e.conv_index_ s.conv_queue_ = [e])
    (hlt : e.conv_index_ < s.converters_.length) :
    (∀ now2 : Time,
      (rosIteration s lock_free now2).1 = (rosIteration s lock_free now).1) ∧
    ∀ s2, ReachAvoiding e.conv_index_ (rosIteration s lock_free now).1 s2 →
      ∀ e2, queueTop s2.conv_queue_ = some e2 →
        e2.conv_index_ = e.conv_index_ →
        e2.schedule_ = e.schedule_ + period conv.frequency := by
  refine ⟨fun now2 => rfl, ?_⟩
  have hstart : uniqueEntryAt e.conv_index_
      (e.schedule_ + period conv.frequency) (rosIteration s lock_free now).1 := by
    rw [rosIteration_dispatch lock_free now htop hconv]
    refine ⟨?_, hlt⟩
    show entriesFor e.conv_index_ (if conv.frequency ≠ 0 then _ else _) = _
    rw [if_pos hf, entriesFor_append]
    have h1 : entriesFor e.conv_index_ (s.conv_queue_.erase e) = [] :=
      filter_erase_single _ _ _ huniq (queueTop_mem htop)
    rw [h1]
    simp [entriesFor]
  intro s2 hreach e2 htop2 hidx
  obtain ⟨hq2, -⟩ := uniqueEntryAt_reach hreach hstart
  have hmem2 : e2 ∈ entriesFor e.conv_index_ s2.conv_queue_ :=
    List.mem_filter.mpr ⟨queueTop_mem htop2, by simp [hidx]⟩
  rw [hq2] at hmem2
  rw [List.mem_singleton.mp hmem2]

/-- Witness for C3 at a one-converter 1 Hz driver. -/
theorem reschedule_exact_period_witness :
    ((1 : ℚ) ≠ 0 ∧
     entriesFor 0 oneHzSample.conv_queue_ =
       [{ schedule_ := 0, conv_index_ := 0 }] ∧
     0 < oneHzSample.converters_.length) ∧
    ((∀ now2 : Time, (rosIteration oneHzSample true now2).1 =
        (rosIteration oneHzSample true 0).1) ∧
     ∀ s2, ReachAvoiding 0 (rosIteration oneHzSample true 0).1 s2 →
       ∀ e2, queueTop s2.conv_queue_ = some e2 → e2.conv_index_ = 0 →
         e2.schedule_ = 0 + period 1) :=
  ⟨⟨by decide, by decide, by decide⟩,
   reschedule_exact_period oneHzSample { schedule_ := 0, conv_index_ := 0 }
     { name := "sonar", frequency := 1 } true 0 rfl rfl (by decide) (by decide)
     (by decide)⟩

/-- Claim C4 (confirmed): a converter registered with frequency 0 is
dispatched exactly once: the tick that dispatches it pops its queue entry and
pushes nothing for its index, and along every further sequence of scheduler
ticks and registrations no entry for its index ever re-enters the queue. -/
theorem zero_frequency_fires_once (s : Driver) (e : ScheduledConverter)
    (conv : Converter) (lock_free : Bool) (now : Time)
    (htop : queueTop s.conv_queue_ = some e)
    (hconv : s.converters_[e.conv_index_]? = some conv)
    (hf : conv.frequency = 0)
    (huniq : entriesFor e.conv_index_ s.conv_queue_ = [e])
    (hlt : e.conv_index_ < s.converters_.length) :
    entriesFor e.conv_index_ (rosIteration s lock_free now).1.conv_queue_ = [] ∧
    ∀ s2, SchedReach (rosIteration s lock_free now).1 s2 →
      entriesFor e.conv_index_ s2.conv_queue_ = [] := by
  have hstart : noEntryFor e.conv_index_ (rosIteration s lock_free now).1 := by
    rw [rosIteration_dispatch lock_free now htop hconv]
    refine ⟨?_, hlt⟩
    show entriesFor e.conv_index_ (if conv.frequency ≠ 0 then _ else _) = _
    rw [if_neg (by simp [hf])]
    exact filter_erase_single _ _ _ huniq (queueTop_mem htop)
  exact ⟨hstart.1, fun s2 hr => (noEntryFor_reach hr hstart).1⟩

/-- Witness for C4 at a one-converter fire-once driver. -/
theorem zero_frequency_fires_once_witness :
    (({ name := "info", frequency := 0 } : Converter).frequency = 0 ∧
     entriesFor 0 zeroFreqSample.conv_queue_ =
       [{ schedule_ := 0, conv_index_ := 0 }] ∧
     0 < zeroFreqSample.converters_.length) ∧
    (entriesFor 0 (rosIteration zeroFreqSample true 0).1.conv_queue_ = [] ∧
     ∀ s2, SchedReach (rosIteration zeroFreqSample true 0).1 s2 →
       entriesFor 0 s2.conv_queue_ = []) :=
  ⟨⟨by decide, by decide, by decide⟩,
   zero_frequency_fires_once zeroFreqSample { schedule_ := 0, conv_index_ := 0 }
     { name := "info", frequency := 0 } true 0 rfl rfl (by decide) (by decide)
     (by decide)⟩

theorem bounded_reg {s : Driver} (conv : Converter) (now : Time)
    (ih : ∀ e ∈ s.conv_queue_, e.conv_index_ < s.converters_.length) :
    ∀ e ∈ (registerConverter s conv now).conv_queue_,
      e.conv_index_ < (registerConverter s conv now).converters_.length := by
  intro e he
  have he' : e ∈ s.conv_queue_ ++
      [{ schedule_ := now, conv_index_ := s.converters_.length }] := he
  show e.conv_index_ < (s.converters_ ++ [conv]).length
  rw [List.length_append]
  rcases List.mem_append.mp he' with h1 | h1
  · have := ih e h1
    omega
  · rw [List.mem_singleton.mp h1]
    show s.converters_.length < s.converters_.length + 1
    omega

theorem bounded_iter {s : Driver} (lock_free : Bool) (now : Time)
    (ih : ∀ e ∈ s.conv_queue_, e.conv_index_ < s.converters_.length) :
    ∀ e ∈ (rosIteration s lock_free now).1.conv_queue_,
      e.conv_index_ < (rosIteration s lock_free now).1.converters_.length := by
  intro e he
  cases hqt : queueTop s.conv_queue_ with
  | none =>
    rw [rosIteration_empty lock_free now hqt] at he ⊢
    exact ih e he
  | some e0 =>
    cases hcv : s.converters_[e0.conv_index_]? with
    | none =>
      rw [rosIteration_oob lock_free now hqt hcv] at he ⊢
      exact ih e he
    | some conv =>
      rw [rosIteration_dispatch lock_free now hqt hcv] at he ⊢
      have he' : e ∈ (if conv.frequency ≠ 0 then
          s.conv_queue_.erase e0 ++
            [{ schedule_ := e0.schedule_ + period conv.frequency
               conv_index_ := e0.conv_index_ }]
          else s.conv_queue_.erase e0) := he
      show e.conv_index_ < s.converters_.length
      by_cases hfz : conv.frequency ≠ 0
      · rw [if_pos hfz] at he'
        rcases List.mem_append.mp he' with h1 | h1
        · exact ih e (List.mem_of_mem_erase h1)
        · rw [List.mem_singleton.mp h1]
          exact ih e0 (queueTop_mem hqt)
      · rw [if_neg hfz] at he'
        exact ih e (List.mem_of_mem_erase he')

/-- Claim C9 (counterexample): stop() clears converters_ but not conv_queue_,
so after registerConverter followed by stop — a state reachable through the
claim's own three operations — the queue still holds the entry for index 0
while the converter registry is empty: that entry's index is not below the
registry size, and the next tick's converters_[conv_index] lookup would be
out of bounds. -/
theorem queue_index_unbounded_after_stop :
    Reachable
      (stop (registerConverter initDriver { name := "c", frequency := 1 } 0)) ∧
    queueIndicesBounded
      (stop (registerConverter initDriver { name := "c", frequency := 1 } 0)) =
      false :=
  ⟨Reachable.halt (Reachable.reg _ _ Reachable.init), by decide⟩

/-- Claim C9 (corrected): in every state reachable through registerConverter
and rosIteration alone, every queue entry's conv_index_ is strictly below the
size of converters_, so the tick's lookup converters_[conv_index] is in
bounds; stop(), however, breaks the invariant (see the counterexample)
because it clears the converter registry without clearing the queue. -/
theorem queue_index_bounded_no_stop {s : Driver} (h : ReachableNoStop s) :
    queueIndicesBounded s = true := by
  have hP : ∀ e ∈ s.conv_queue_, e.conv_index_ < s.converters_.length := by
    induction h with
    | init => intro e he; cases he
    | reg conv now h ih => exact bounded_reg conv now ih
    | iter lock_free now h ih => exact bounded_iter lock_free now ih
  unfold queueIndicesBounded
  rw [List.all_eq_true]
  intro e he
  rw [decide_eq_true_eq]
  exact hP e he

/-- Witness for C9 (corrected) at the state after one registration. -/
theorem queue_index_bounded_no_stop_witness :
    ReachableNoStop
      (registerConverter initDriver { name := "c", frequency := 1 } 0) ∧
    queueIndicesBounded
      (registerConverter initDriver { name := "c", frequency := 1 } 0) = true :=
  ⟨ReachableNoStop.reg _ _ ReachableNoStop.init,
   queue_index_bounded_no_stop (ReachableNoStop.reg _ _ ReachableNoStop.init)⟩

end NaoqiDriver
